import Mathlib

/-!
Shallow embedding of the supervisor / worker coordination core of the
sc-project-service repository.

The model follows the first (complete) `Supervisor` class in
`src/unnamed/part_009` (lines 63-411): worker registry, pending message
table, liveness probe, routing (`handleWorkerMessage`,
`handleSendMessageWorker`), restart and replay (`restartWorker`,
`resendPendingMessages`, `createWorker`), plus the message-channel helper
`sendMessagetoSupervisor` (`src/unnamed/part_007`) and the inbound message
handler of `DatabaseInteractionWorker.listenTask`
(`src/src/workers/DatabaseInteractionWorker.ts`).

Side effects (channel sends, process spawn/kill, `setTimeout` retries,
table writes) are modelled as an explicit event trace in code order; the
supervisor state is threaded explicitly.  The `ps -o state= -p pid` probe
is modelled by an environment `osState : Nat → String` giving the trimmed
state string per pid.  The opaque `data` payload plays no role in any
routing decision and is omitted from the envelope.
-/

set_option maxHeartbeats 1600000

namespace SCProject

/-- Message envelope (`Message` in `src/unnamed/part_007`).  The supervisor
destructures `destination` and iterates it, so here it is the plain list the
routing code assumes; the worker-side view with the optional field is
`WMessage` below.  The opaque `data` payload is omitted. -/
structure Message where
  messageId : String
  status : String
  destination : List String
  reason : Option String
deriving DecidableEq, Repr

/-- One entry of the pending table: `{...message, timestamp: Date.now()}`. -/
structure PendingMessage where
  msg : Message
  timestamp : Nat
deriving DecidableEq, Repr

/-- A child process as the supervisor sees it (`ChildProcess`): pid, the
`spawnargs` array, `exitCode` and the `killed` flag. -/
structure WorkerProc where
  pid : Nat
  spawnargs : List String
  exitCode : Option Int
  killed : Bool
deriving DecidableEq, Repr

/-- Supervisor state: the `workers` registry and the `pendingMessages`
record (total function with default `[]`, observationally equivalent to the
JS record), plus a fresh-pid counter for `spawn` and the current clock value
used for `Date.now()` timestamps. -/
structure SupState where
  workers : List WorkerProc
  pending : String → List PendingMessage
  nextPid : Nat
  now : Nat

/-- Observable effects of the supervisor code, in code order: a
`trackPendingMessage` call, a `removePendingMessage` table write, a channel
`send`, a process `spawn`, a `kill`, a scheduled `setTimeout` retry, the
per-destination dispatch into `handleSendMessageWorker`, the
"Tried to send message to dead worker!" branch, and the
"Worker count must be greater than zero" throw. -/
inductive Event where
  | track (workerName messageId : String)
  | remove (workerName messageId : String)
  | send (pid : Nat) (msg : Message)
  | spawn (workerName : String) (pid : Nat)
  | kill (pid : Nat)
  | retry (delayMs : Nat) (msg : Message) (fromPid : Nat)
  | forward (msg : Message)
  | deadSend
  | throwCountErr
deriving DecidableEq, Repr

/-- Liveness probe `isWorkerAlive` (part_009 lines 408-410): exitCode is null and the
killed flag is unset. -/
def isWorkerAlive (w : WorkerProc) : Bool :=
  w.exitCode.isNone && !w.killed

/-- Prefix test on character lists. -/
def charListStartsWith : List Char → List Char → Bool
  | [], _ => true
  | _ :: _, [] => false
  | p :: ps, c :: cs => p == c && charListStartsWith ps cs

/-- Substring containment on character lists (the empty needle matches). -/
def charListContains (needle : List Char) : List Char → Bool
  | [] => needle.isEmpty
  | c :: cs => charListStartsWith needle (c :: cs) || charListContains needle cs

/-- Strip `sep` from the front of a character list, if it is a prefix. -/
def stripPrefixCL : List Char → List Char → Option (List Char)
  | [], l => some l
  | _ :: _, [] => none
  | p :: ps, c :: cs => if p == c then stripPrefixCL ps cs else none

/-- Fuel-indexed splitter: split on the leftmost non-overlapping occurrences
of `sep`, accumulating the current fragment in reverse.  The fuel is always
instantiated with the length of the list, which suffices since every
recursive call consumes at least one character (the fuel-exhausted clause is
unreachable for a nonempty separator). -/
def splitFuel (sep : List Char) : Nat → List Char → List Char → List (List Char)
  | _, [], acc => [acc.reverse]
  | 0, l, acc => [acc.reverse ++ l]
  | Nat.succ f, c :: cs, acc =>
    match stripPrefixCL sep (c :: cs) with
    | some rest => acc.reverse :: splitFuel sep f rest []
    | none => splitFuel sep f cs (c :: acc)

/-- JavaScript `s.split(sep)`: for the empty separator the string splits
into its characters; otherwise fragments between leftmost non-overlapping
occurrences of `sep`.  (Structurally recursive so that concrete instances
evaluate; `String.splitOn` agrees on nonempty separators but does not
reduce.) -/
def jsSplit (s sep : String) : List String :=
  if sep.data.isEmpty then s.data.map (fun c => String.mk [c])
  else (splitFuel sep.data s.data.length s.data []).map String.mk

/-- JavaScript `hay.includes(needle)` on strings. -/
def strIncludes (hay needle : String) : Bool :=
  charListContains needle.data hay.data

/-- Registry type test `worker.spawnargs.some((args) => args.includes(workerName))` — the
registry's worker-type test is substring containment over `spawnargs`. -/
def workerNameMatches (w : WorkerProc) (workerName : String) : Bool :=
  w.spawnargs.any (fun a => strIncludes a workerName)

/-- Routing key `dest.split("/")?.[0]?.split(".")?.[0] ?? ""` of a
destination string.  For an actual string the `??` fallback is dead code
(`split` never yields an empty array), so it is not modelled. -/
def workerNameOfDest (dest : String) : String :=
  (jsSplit ((jsSplit dest "/").headD "") ".").headD ""

/-- Point update of the pending record. -/
def setPending (st : SupState) (k : String) (v : List PendingMessage) : SupState :=
  { st with pending := fun t => if t = k then v else st.pending t }

/-- Duplicate test `some((m) => m.messageId === message.messageId)` over a pending list. -/
def hasPendingId (l : List PendingMessage) (messageId : String) : Bool :=
  l.any (fun pm => pm.msg.messageId == messageId)

/-- Table operation `trackPendingMessage` (part_009 lines 343-359): no-op on an empty
worker name (the only falsy string); append `{...message, timestamp}` iff
no entry with the same `messageId` exists. -/
def trackPendingMessage (st : SupState) (workerName : String) (m : Message) : SupState :=
  if workerName = "" then st
  else if hasPendingId (st.pending workerName) m.messageId then st
  else setPending st workerName (st.pending workerName ++ [{ msg := m, timestamp := st.now }])

/-- Table operation `removePendingMessage` (part_009 lines 361-366): filter out entries
with the given `messageId` (missing key is equivalent to `[]`). -/
def removePendingMessage (st : SupState) (workerName messageId : String) : SupState :=
  if workerName = "" then st
  else setPending st workerName
    ((st.pending workerName).filter (fun pm => !(pm.msg.messageId == messageId)))

/-- Drain operation `resendPendingMessages` (part_009 lines 368-406): if the list is empty
return; find the first alive worker whose spawnargs match; if none return;
otherwise send every pending entry in order.  No table mutation. -/
def resendPendingMessages (st : SupState) (workerName : String) : SupState × List Event :=
  let messages := st.pending workerName
  if messages.isEmpty then (st, [])
  else
    match st.workers.find? (fun w => workerNameMatches w workerName && isWorkerAlive w) with
    | none => (st, [])
    | some w => (st, messages.map (fun pm => Event.send w.pid pm.msg))

/-- Stand-in for `process.execPath` (first element of `spawnargs`). -/
def execPathStr : String := "node"

/-- The ts-node launcher path passed as first spawn argument. -/
def tsNodeBinStr : String := "node_modules/ts-node/dist/bin.js"

/-- Stand-in for `path.resolve(__dirname, "./workers/<worker>.ts")`. -/
def workerPathStr (worker : String) : String :=
  "src/workers/" ++ worker ++ ".ts"

/-- The `spawnargs` of a spawned child: command followed by its arguments. -/
def spawnArgsFor (worker : String) : List String :=
  [execPathStr, tsNodeBinStr, workerPathStr worker]

/-- Dummy worker record used only as the (unreachable) default of `headD`
on a list already known to be nonempty. -/
def dummyWorker : WorkerProc :=
  { pid := 0, spawnargs := [], exitCode := none, killed := true }

/-- One `spawn` call: registers a fresh, alive child at the end of the
registry. -/
def spawnOne (st : SupState) (worker : String) : SupState × WorkerProc :=
  let w : WorkerProc :=
    { pid := st.nextPid, spawnargs := spawnArgsFor worker, exitCode := none, killed := false }
  ({ st with workers := st.workers ++ [w], nextPid := st.nextPid + 1 }, w)

/-- The `for (let i = 0; i < count; i++)` spawn loop of `createWorker`. -/
def spawnLoop (st : SupState) (worker : String) : Nat → SupState × List Event
  | 0 => (st, [])
  | Nat.succ n =>
    let p := spawnOne st worker
    let r := spawnLoop p.1 worker n
    (r.1, Event.spawn worker p.2.pid :: r.2)

/-- JS `count <= 0` where `count` may be `undefined`: comparing `undefined`
with a number is always false. -/
def jsCountNotPositive : Option Int → Bool
  | some c => decide (c ≤ 0)
  | none => false

/-- Number of iterations of `for (let i = 0; i < count; i++)` in JS:
`i < undefined` is false, so an undefined count runs zero iterations. -/
def jsLoopIterations : Option Int → Nat
  | some c => c.toNat
  | none => 0

/-- Lookup `workerConfig[worker]?.count` (src/unnamed/part_002): the three
declared types have `count: 1`; any other key is `undefined`. -/
def workerConfigCount (worker : String) : Option Int :=
  if worker = "DatabaseInteractionWorker" ∨ worker = "RestApiWorker" ∨ worker = "RabbitMQWorker"
  then some 1 else none

/-- Spawn engine `createWorker` (part_009 lines 127-196): throw on `count <= 0`,
spawn `count` children, then `resendPendingMessages(worker)`.  The throw is
modelled as a `throwCountErr` event with the state left unchanged. -/
def createWorker (st : SupState) (worker : String) (count : Option Int) : SupState × List Event :=
  if jsCountNotPositive count then (st, [Event.throwCountErr])
  else
    let r1 := spawnLoop st worker (jsLoopIterations count)
    let r2 := resendPendingMessages r1.1 worker
    (r2.1, r1.2 ++ r2.2)

/-- Segments of `spawnargs[last].split(/[/\\]/)`: splitting on the character
class is splitting on `/` and then on `\` within each fragment. -/
def pathSegments (s : String) : List String :=
  (jsSplit s "/").flatMap (fun seg => jsSplit seg "\\")

/-- The worker-type name `restartWorker` recovers from the last spawn
argument (part_009 lines 320-323): last path segment, stripped of its
extension. -/
def restartNameOf (w : WorkerProc) : String :=
  (jsSplit ((((pathSegments ((w.spawnargs.getLast?).getD "")).getLast?).getD "")) ".").headD ""

/-- Kill call `worker.kill()`: set the `killed` flag on the registry entry with this
pid (the child stays in `workers` until its async `exit` event fires). -/
def killPid (st : SupState) (pid : Nat) : SupState :=
  { st with workers := st.workers.map (fun w => if w.pid = pid then { w with killed := true } else w) }

/-- Restart operation `restartWorker` (part_009 lines 319-337): kill the child, respawn its
type from `workerConfig`, then replay that type's pending messages. -/
def restartWorker (st : SupState) (w : WorkerProc) : SupState × List Event :=
  let name := restartNameOf w
  let st1 := killPid st w.pid
  let r2 := createWorker st1 name (workerConfigCount name)
  let r3 := resendPendingMessages r2.1 name
  (r3.1, Event.kill w.pid :: (r2.2 ++ r3.2))

/-- The candidate filter of `handleSendMessageWorker` (part_009 lines
232-242): spawnargs match, alive, and the `ps -o state=` probe does not
report `R`. -/
def availableWorkersFor (osState : Nat → String) (st : SupState) (workerName : String) :
    List WorkerProc :=
  st.workers.filter (fun w =>
    workerNameMatches w workerName && isWorkerAlive w && !(osState w.pid == "R"))

/-- The body of the `destination.forEach` loop of `handleSendMessageWorker`
(part_009 lines 221-312), for one destination string. -/
def handleOneDest (osState : Nat → String) (st : SupState) (processId : Nat)
    (m : Message) (dest : String) : SupState × List Event :=
  let workerName := workerNameOfDest dest
  let avail := availableWorkersFor osState st workerName
  let st1 := trackPendingMessage st workerName m
  let evT : List Event := [Event.track workerName m.messageId]
  if m.status = "error" then
    match st1.workers.find? (fun w => w.pid == processId) with
    | some w =>
      let r := restartWorker st1 w
      (r.1, evT ++ r.2)
    | none => (st1, evT)
  else if avail.isEmpty then
    let r := createWorker st1 workerName (workerConfigCount workerName)
    (r.1, evT ++ r.2)
  else
    let avail2 :=
      if m.status == "failed" && m.reason == some "SERVER_BUSY"
      then avail.filter (fun w => !(w.pid == processId)) else avail
    if avail2.isEmpty then
      (st1, evT ++ [Event.retry 5000 { m with status := "completed" } processId])
    else
      let target := avail2.headD dummyWorker
      if isWorkerAlive target then (st1, evT ++ [Event.send target.pid m])
      else (st1, evT ++ [Event.deadSend])

/-- Router body `handleSendMessageWorker` (part_009 lines 219-313): iterate the
destination list, threading the registry and pending table. -/
def handleSendMessageWorker (osState : Nat → String) (st : SupState) (processId : Nat)
    (m : Message) : SupState × List Event :=
  m.destination.foldl
    (fun acc dest =>
      let r := handleOneDest osState acc.1 processId m dest
      (r.1, acc.2 ++ r.2))
    (st, [])

/-- Result of `handleWorkerMessage`: final state, event trace, and the
final value of the (mutated) `message.destination` field. -/
structure RouteResult where
  state : SupState
  events : List Event
  finalDestination : List String

/-- Router entry `handleWorkerMessage` (part_009 lines 199-217): for each entry of the
original destination list, a non-supervisor entry overwrites
`message.destination` with the original list filtered to entries equal to
it and dispatches the same envelope; the `supervisor` entry, on a
`completed` status, removes the `messageId` under the routing key parsed
from that entry (i.e. the key `"supervisor"`). -/
def handleWorkerMessage (osState : Nat → String) (st : SupState) (m : Message)
    (processId : Nat) : RouteResult :=
  let dests := m.destination
  dests.foldl
    (fun (acc : RouteResult) dest =>
      if dest ≠ "supervisor" then
        let newDest := dests.filter (fun d => d == dest)
        let fwd := { m with destination := newDest }
        let r := handleSendMessageWorker osState acc.state processId fwd
        { state := r.1, events := acc.events ++ (Event.forward fwd :: r.2),
          finalDestination := newDest }
      else if m.status = "completed" then
        let workerName := workerNameOfDest dest
        { state := removePendingMessage acc.state workerName m.messageId,
          events := acc.events ++ [Event.remove workerName m.messageId],
          finalDestination := acc.finalDestination }
      else acc)
    { state := st, events := [], finalDestination := m.destination }

/-- Worker-side inbound message (`Message` in `src/unnamed/part_007`):
the `destination` field is optional there. -/
structure WMessage where
  messageId : String
  status : String
  destination : Option (List String)
  reason : Option String
deriving DecidableEq, Repr

/-- Channel helper `sendMessagetoSupervisor` (part_007): the destructuring default
`destination = ["supervisor"]` applies only when the field is absent. -/
def sendMessagetoSupervisor (m : WMessage) : Message :=
  { messageId := m.messageId, status := m.status,
    destination := m.destination.getD ["supervisor"], reason := m.reason }

/-- A dynamic dispatch `await this[path]({id: subPath, data})` performed by
the database worker: method-name segment and optional argument segment. -/
inductive DbAction where
  | invoke (method : Option String) (arg : Option String)
deriving DecidableEq, Repr

/-- One destination handled by the non-busy branch of
`DatabaseInteractionWorker.listenTask`: the dispatch plus the `completed`
reply built from the method result.  The result of the database call is
supplied by the oracle `exec`, which returns the `destination` field of the
result object (the database itself is outside the model). -/
def dbHandleDest (exec : Option String → Option String → List String) (messageId : String)
    (d : String) : DbAction × Message :=
  let parts := jsSplit d "/"
  let path := parts.get? 1
  let subPath := parts.get? 2
  (DbAction.invoke path subPath,
   { messageId := messageId, status := "completed",
     destination := exec path subPath, reason := none })

/-- The `process.on("message", ...)` handler body of
`DatabaseInteractionWorker.listenTask` (lines 54-97): when `isBusy`, reply
with `{...message, status: "failed", reason: "SERVER_BUSY"}` and perform no
database action; otherwise set busy, filter destinations containing
`"DatabaseInteractionWorker"`, dispatch each, reply per destination, and
clear busy.  Returns (database actions, emitted replies, final busy flag). -/
def dbOnMessage (exec : Option String → Option String → List String) (isBusy : Bool)
    (m : WMessage) : List DbAction × List Message × Bool :=
  if isBusy then
    ([], [sendMessagetoSupervisor { m with status := "failed", reason := some "SERVER_BUSY" }],
     isBusy)
  else
    let dests := (m.destination.getD []).filter (fun d => strIncludes d "DatabaseInteractionWorker")
    let handled := dests.map (dbHandleDest exec m.messageId)
    (handled.map Prod.fst, handled.map Prod.snd, false)

/-! ### Specification predicates -/

/-- The pending-table invariant: at most one entry per
`(workerType, messageId)` — the id projection of every per-type list has no
duplicates. -/
def uniqIds (st : SupState) : Prop :=
  ∀ t, ((st.pending t).map (fun pm => pm.msg.messageId)).Nodup

/-- Predicate: `q` is a dead pid in `st`: every registry entry carrying it is dead,
and it is below the fresh-pid counter (so no future spawn reuses it). -/
def DeadPid (st : SupState) (q : Nat) : Prop :=
  (∀ w ∈ st.workers, w.pid = q → isWorkerAlive w = false) ∧ q < st.nextPid

/-- Registry sanity: pids are pairwise distinct and below the fresh-pid
counter. -/
def RegInv (st : SupState) : Prop :=
  (st.workers.map (fun w => w.pid)).Nodup ∧ ∀ w ∈ st.workers, w.pid < st.nextPid

/-! ### Concrete inputs used by counterexamples and witnesses -/

/-- OS-state environment reporting every pid as sleeping. -/
def rhoS : Nat → String := fun _ => "S"

/-- An alive database worker with pid 10. -/
def dbWorker10 : WorkerProc :=
  { pid := 10, spawnargs := spawnArgsFor "DatabaseInteractionWorker",
    exitCode := none, killed := false }

/-- A second alive database worker with pid 11. -/
def dbWorker11 : WorkerProc :=
  { pid := 11, spawnargs := spawnArgsFor "DatabaseInteractionWorker",
    exitCode := none, killed := false }

/-- An exited REST worker with pid 7. -/
def deadWorker7 : WorkerProc :=
  { pid := 7, spawnargs := spawnArgsFor "RestApiWorker",
    exitCode := some 1, killed := false }

/-- An envelope previously forwarded to the database worker. -/
def msgDb1 : Message :=
  { messageId := "m1", status := "completed",
    destination := ["DatabaseInteractionWorker/createNewData"], reason := none }

/-- The pending entry tracking `msgDb1`. -/
def pmDb1 : PendingMessage := { msg := msgDb1, timestamp := 0 }

/-- State with `msgDb1` pending for the database worker type and one alive
database worker. -/
def stAck : SupState :=
  { workers := [dbWorker10],
    pending := fun t => if t = "DatabaseInteractionWorker" then [pmDb1] else [],
    nextPid := 100, now := 5 }

/-- A completed reply citing `m1` whose destination includes `supervisor`
and one peer destination. -/
def ackSup : Message :=
  { messageId := "m1", status := "completed",
    destination := ["supervisor", "DatabaseInteractionWorker/onProcessedMessage"],
    reason := none }

/-- An error envelope from pid 10 destined to the sender's own type. -/
def errMsg1 : Message :=
  { messageId := "e1", status := "error",
    destination := ["DatabaseInteractionWorker/x"], reason := some "boom" }

/-- State with a single alive database worker and an empty pending table. -/
def stErr : SupState :=
  { workers := [dbWorker10], pending := fun _ => [], nextPid := 100, now := 7 }

/-- A two-destination fan-out envelope. -/
def fanMsg : Message :=
  { messageId := "m2", status := "completed",
    destination := ["RestApiWorker/a", "DatabaseInteractionWorker/b"], reason := none }

/-- A `SERVER_BUSY` failure reply from pid 10. -/
def busyMsg : Message :=
  { messageId := "b1", status := "failed",
    destination := ["DatabaseInteractionWorker/createNewData"],
    reason := some "SERVER_BUSY" }

/-- State with two alive database workers (pids 10 and 11). -/
def stTwoDb : SupState :=
  { workers := [dbWorker10, dbWorker11], pending := fun _ => [], nextPid := 100, now := 1 }

/-- An envelope addressed to a worker type absent from `workerConfig`. -/
def unkMsg : Message :=
  { messageId := "u1", status := "completed", destination := ["UnknownWorker/z"],
    reason := none }

/-- State with an empty registry and empty pending table. -/
def stEmpty : SupState :=
  { workers := [], pending := fun _ => [], nextPid := 100, now := 1 }

/-- Trivial database oracle. -/
def dbExec0 : Option String → Option String → List String := fun _ _ => []

/-- An inbound database-worker message with an explicit destination. -/
def wBusyMsg : WMessage :=
  { messageId := "q1", status := "completed",
    destination := some ["DatabaseInteractionWorker/createNewData"], reason := none }

/-- A completed ack whose destination list is exactly `["supervisor"]`. -/
def ackOnly : Message :=
  { messageId := "m1", status := "completed", destination := ["supervisor"], reason := none }

/-- State holding one dead worker (pid 7) and one alive worker (pid 10). -/
def stDead : SupState :=
  { workers := [deadWorker7, dbWorker10], pending := fun _ => [], nextPid := 100, now := 0 }

/-- The reply the busy database worker actually emits for `wBusyMsg`. -/
def wBusyReplyActual : Message :=
  { messageId := "q1", status := "failed",
    destination := ["DatabaseInteractionWorker/createNewData"],
    reason := some "SERVER_BUSY" }

/-- Projection extracting `forward` events from a trace. -/
def forwardProj : Event → Option Message
  | Event.forward msg => some msg
  | _ => none

/-! ### Basic lemmas about the table operations -/

theorem setPending_self (st : SupState) (k : String) (v : List PendingMessage) :
    (setPending st k v).pending k = v := by
  simp [setPending]

theorem setPending_ne (st : SupState) (k t : String) (v : List PendingMessage)
    (h : t ≠ k) : (setPending st k v).pending t = st.pending t := by
  simp [setPending, h]

theorem hasPendingId_iff (l : List PendingMessage) (i : String) :
    hasPendingId l i = true ↔ i ∈ l.map (fun pm => pm.msg.messageId) := by
  simp [hasPendingId, List.any_eq_true, List.mem_map]

theorem trackPendingMessage_emptyName (st : SupState) (m : Message) :
    trackPendingMessage st "" m = st := by
  unfold trackPendingMessage
  simp

theorem removePendingMessage_emptyName (st : SupState) (i : String) :
    removePendingMessage st "" i = st := by
  unfold removePendingMessage
  simp

theorem trackPendingMessage_workers (st : SupState) (n : String) (m : Message) :
    (trackPendingMessage st n m).workers = st.workers := by
  unfold trackPendingMessage setPending
  split
  · rfl
  · split <;> rfl

theorem trackPendingMessage_nextPid (st : SupState) (n : String) (m : Message) :
    (trackPendingMessage st n m).nextPid = st.nextPid := by
  unfold trackPendingMessage setPending
  split
  · rfl
  · split <;> rfl

theorem trackPendingMessage_pending_ne (st : SupState) (n t : String) (m : Message)
    (h : t ≠ n) : (trackPendingMessage st n m).pending t = st.pending t := by
  unfold trackPendingMessage
  split
  · rfl
  · split
    · rfl
    · exact setPending_ne _ _ _ _ h

theorem trackPendingMessage_pending_append (st : SupState) (n : String) (m : Message)
    (hn : n ≠ "") (hd : hasPendingId (st.pending n) m.messageId = false) :
    (trackPendingMessage st n m).pending n =
      st.pending n ++ [{ msg := m, timestamp := st.now }] := by
  unfold trackPendingMessage
  simp [hn, hd, setPending]

theorem trackPendingMessage_pending_dup (st : SupState) (n : String) (m : Message)
    (hd : hasPendingId (st.pending n) m.messageId = true) :
    trackPendingMessage st n m = st := by
  unfold trackPendingMessage
  split
  · rfl
  · simp [hd]

theorem trackPendingMessage_has (st : SupState) (n : String) (m : Message)
    (hn : n ≠ "") :
    hasPendingId ((trackPendingMessage st n m).pending n) m.messageId = true := by
  by_cases hd : hasPendingId (st.pending n) m.messageId
  · rw [trackPendingMessage_pending_dup st n m hd]; exact hd
  · rw [trackPendingMessage_pending_append st n m hn (by simpa using hd)]
    simp [hasPendingId]

theorem removePendingMessage_workers (st : SupState) (n i : String) :
    (removePendingMessage st n i).workers = st.workers := by
  unfold removePendingMessage setPending
  split <;> rfl

theorem removePendingMessage_pending_ne (st : SupState) (n t i : String)
    (h : t ≠ n) : (removePendingMessage st n i).pending t = st.pending t := by
  unfold removePendingMessage
  split
  · rfl
  · exact setPending_ne _ _ _ _ h

theorem removePendingMessage_pending_self (st : SupState) (n i : String) (hn : n ≠ "") :
    (removePendingMessage st n i).pending n =
      (st.pending n).filter (fun pm => !(pm.msg.messageId == i)) := by
  unfold removePendingMessage
  simp [hn, setPending]

theorem trackPendingMessage_uniq (st : SupState) (n : String) (m : Message)
    (h : uniqIds st) : uniqIds (trackPendingMessage st n m) := by
  intro t
  by_cases ht : t = n
  · subst ht
    by_cases hn : t = ""
    · subst hn; rw [trackPendingMessage_emptyName]; exact h ""
    by_cases hd : hasPendingId (st.pending t) m.messageId
    · rw [trackPendingMessage_pending_dup st t m hd]; exact h t
    · rw [trackPendingMessage_pending_append st t m hn (by simpa using hd)]
      have hni : m.messageId ∉ (st.pending t).map (fun pm => pm.msg.messageId) := by
        intro hmem
        exact hd ((hasPendingId_iff _ _).mpr hmem)
      simpa [List.nodup_append] using And.intro (h t) hni
  · rw [trackPendingMessage_pending_ne st n t m ht]; exact h t

theorem removePendingMessage_uniq (st : SupState) (n i : String)
    (h : uniqIds st) : uniqIds (removePendingMessage st n i) := by
  intro t
  by_cases ht : t = n
  · subst ht
    by_cases hn : t = ""
    · subst hn; rw [removePendingMessage_emptyName]; exact h ""
    · rw [removePendingMessage_pending_self st t i hn]
      exact ((List.filter_sublist _).map _).nodup (h t)
  · rw [removePendingMessage_pending_ne st n t i ht]; exact h t

theorem resendPendingMessages_state (st : SupState) (n : String) :
    (resendPendingMessages st n).1 = st := by
  cases hE : (st.pending n).isEmpty with
  | true => simp [resendPendingMessages, hE]
  | false =>
    cases hf : st.workers.find? (fun w => workerNameMatches w n && isWorkerAlive w) with
    | none => simp [resendPendingMessages, hE, hf]
    | some w => simp [resendPendingMessages, hE, hf]

theorem resendPendingMessages_send_mem (st : SupState) (n : String) (e : Event)
    (h : e ∈ (resendPendingMessages st n).2) :
    ∃ w, st.workers.find? (fun w => workerNameMatches w n && isWorkerAlive w) = some w ∧
      ∃ pm ∈ st.pending n, e = Event.send w.pid pm.msg := by
  cases hE : (st.pending n).isEmpty with
  | true => simp [resendPendingMessages, hE] at h
  | false =>
    cases hf : st.workers.find? (fun w => workerNameMatches w n && isWorkerAlive w) with
    | none => simp [resendPendingMessages, hE, hf] at h
    | some w =>
      simp only [resendPendingMessages, hE, hf] at h
      rcases List.mem_map.mp (by simpa using h) with ⟨pm, hpm, rfl⟩
      exact ⟨w, rfl, pm, hpm, rfl⟩

theorem resendPendingMessages_deadsafe (st : SupState) (n : String) (q : Nat)
    (h : DeadPid st q) : ∀ msg, Event.send q msg ∉ (resendPendingMessages st n).2 := by
  intro msg hmem
  rcases resendPendingMessages_send_mem _ _ _ hmem with ⟨w, hw, pm, _, heq⟩
  have hmemw := List.mem_of_find?_eq_some hw
  have hp := List.find?_some hw
  simp only [Bool.and_eq_true] at hp
  simp only [Event.send.injEq] at heq
  exact absurd hp.2 (by simp [h.1 w hmemw heq.1.symm])

/-! ### Spawn, create, kill, restart lemmas -/

theorem spawnOne_deadsafe (st : SupState) (n : String) (q : Nat)
    (h : DeadPid st q) : DeadPid (spawnOne st n).1 q := by
  refine ⟨?_, Nat.lt_succ_of_lt h.2⟩
  intro w hw hpid
  rcases List.mem_append.mp hw with hm | hm
  · exact h.1 w hm hpid
  · simp only [List.mem_singleton] at hm
    subst hm
    simp only [spawnOne] at hpid
    have := h.2
    omega

theorem spawnLoop_pending (n : String) (k : Nat) :
    ∀ st : SupState, ((spawnLoop st n k).1).pending = st.pending := by
  induction k with
  | zero => intro st; rfl
  | succ k ih =>
    intro st
    show ((spawnLoop (spawnOne st n).1 n k).1).pending = st.pending
    rw [ih]
    rfl

theorem spawnLoop_events (n : String) (k : Nat) :
    ∀ (st : SupState) (e : Event), e ∈ (spawnLoop st n k).2 → ∃ p, e = Event.spawn n p := by
  induction k with
  | zero => intro st e h; simp [spawnLoop] at h
  | succ k ih =>
    intro st e h
    rcases List.mem_cons.mp h with h | h
    · exact ⟨(spawnOne st n).2.pid, h⟩
    · exact ih _ _ h

theorem spawnLoop_deadsafe (n : String) (k : Nat) :
    ∀ (st : SupState) (q : Nat), DeadPid st q → DeadPid (spawnLoop st n k).1 q := by
  induction k with
  | zero => intro st q h; exact h
  | succ k ih =>
    intro st q h
    exact ih _ _ (spawnOne_deadsafe st n q h)

theorem createWorker_pending (st : SupState) (n : String) (c : Option Int) :
    ((createWorker st n c).1).pending = st.pending := by
  unfold createWorker
  split
  · rfl
  · dsimp only
    rw [resendPendingMessages_state, spawnLoop_pending]

theorem createWorker_events (st : SupState) (n : String) (c : Option Int) (e : Event)
    (h : e ∈ (createWorker st n c).2) :
    e = Event.throwCountErr ∨ (∃ p, e = Event.spawn n p) ∨
      ∃ p msg, e = Event.send p msg ∧ ∃ pm ∈ st.pending n, pm.msg = msg := by
  unfold createWorker at h
  split at h
  · simp only [List.mem_singleton] at h
    exact Or.inl h
  · dsimp only at h
    rcases List.mem_append.mp h with hm | hm
    · exact Or.inr (Or.inl (spawnLoop_events n _ _ e hm))
    · rcases resendPendingMessages_send_mem _ _ _ hm with ⟨w, _, pm, hpm, rfl⟩
      rw [spawnLoop_pending] at hpm
      exact Or.inr (Or.inr ⟨w.pid, pm.msg, rfl, pm, hpm, rfl⟩)

theorem createWorker_deadsafe (st : SupState) (n : String) (c : Option Int) (q : Nat)
    (h : DeadPid st q) :
    DeadPid ((createWorker st n c).1) q ∧
      ∀ msg, Event.send q msg ∉ (createWorker st n c).2 := by
  unfold createWorker
  split
  · exact ⟨h, by intro msg hm; simp at hm⟩
  · dsimp only
    have hsp := spawnLoop_deadsafe n (jsLoopIterations c) st q h
    refine ⟨by rwa [resendPendingMessages_state], ?_⟩
    intro msg hm
    rcases List.mem_append.mp hm with hm | hm
    · rcases spawnLoop_events n _ _ _ hm with ⟨p, hp⟩
      exact Event.noConfusion hp
    · exact resendPendingMessages_deadsafe _ n q hsp msg hm

theorem killPid_pending (st : SupState) (p : Nat) :
    (killPid st p).pending = st.pending := rfl

theorem killPid_deadsafe (st : SupState) (p q : Nat)
    (h : DeadPid st q) : DeadPid (killPid st p) q := by
  refine ⟨?_, h.2⟩
  intro w hw hq
  rcases List.mem_map.mp hw with ⟨w0, hw0, rfl⟩
  by_cases hp : w0.pid = p
  · simp [hp, isWorkerAlive]
  · simp only [hp, if_false] at hq ⊢
    exact h.1 w0 hw0 (by simpa [hp] using hq)

theorem restartWorker_pending (st : SupState) (w : WorkerProc) :
    ((restartWorker st w).1).pending = st.pending := by
  unfold restartWorker
  dsimp only
  rw [resendPendingMessages_state, createWorker_pending, killPid_pending]

theorem restartWorker_events (st : SupState) (w : WorkerProc) (e : Event)
    (h : e ∈ (restartWorker st w).2) :
    e = Event.kill w.pid ∨ e = Event.throwCountErr ∨
      (∃ p, e = Event.spawn (restartNameOf w) p) ∨
      ∃ p msg, e = Event.send p msg ∧
        ∃ pm ∈ st.pending (restartNameOf w), pm.msg = msg := by
  unfold restartWorker at h
  dsimp only at h
  rcases List.mem_cons.mp h with hm | hm
  · exact Or.inl hm
  rcases List.mem_append.mp hm with hm | hm
  · rcases createWorker_events _ _ _ _ hm with h1 | h1 | ⟨p, msg, rfl, pm, hpm, rfl⟩
    · exact Or.inr (Or.inl h1)
    · exact Or.inr (Or.inr (Or.inl h1))
    · rw [killPid_pending] at hpm
      exact Or.inr (Or.inr (Or.inr ⟨p, pm.msg, rfl, pm, hpm, rfl⟩))
  · rcases resendPendingMessages_send_mem _ _ _ hm with ⟨w', _, pm, hpm, rfl⟩
    rw [createWorker_pending, killPid_pending] at hpm
    exact Or.inr (Or.inr (Or.inr ⟨w'.pid, pm.msg, rfl, pm, hpm, rfl⟩))

theorem restartWorker_deadsafe (st : SupState) (w : WorkerProc) (q : Nat)
    (h : DeadPid st q) :
    DeadPid ((restartWorker st w).1) q ∧
      ∀ msg, Event.send q msg ∉ (restartWorker st w).2 := by
  unfold restartWorker
  dsimp only
  have h1 := killPid_deadsafe st w.pid q h
  have h2 := createWorker_deadsafe _ (restartNameOf w) (workerConfigCount (restartNameOf w)) q h1
  refine ⟨by rw [resendPendingMessages_state]; exact h2.1, ?_⟩
  intro msg hm
  rcases List.mem_cons.mp hm with hm | hm
  · exact Event.noConfusion hm
  rcases List.mem_append.mp hm with hm | hm
  · exact h2.2 msg hm
  · exact resendPendingMessages_deadsafe _ _ q h2.1 msg hm

/-! ### Lemmas about the per-destination routing step -/

theorem headD_mem {α : Type} {l : List α} (d : α) (h : l ≠ []) : l.headD d ∈ l := by
  cases l with
  | nil => exact absurd rfl h
  | cons a tl => simp

theorem availableWorkersFor_mem (osState : Nat → String) (st : SupState) (n : String)
    (w : WorkerProc) (h : w ∈ availableWorkersFor osState st n) :
    w ∈ st.workers ∧ workerNameMatches w n = true ∧ isWorkerAlive w = true := by
  rcases List.mem_filter.mp h with ⟨h1, h2⟩
  simp only [Bool.and_eq_true] at h2
  exact ⟨h1, h2.1.1, h2.1.2⟩

theorem trackPendingMessage_deadsafe (st : SupState) (n : String) (m : Message) (q : Nat)
    (h : DeadPid st q) : DeadPid (trackPendingMessage st n m) q := by
  constructor
  · rw [trackPendingMessage_workers]; exact h.1
  · rw [trackPendingMessage_nextPid]; exact h.2

theorem handleOneDest_pending (osState : Nat → String) (st : SupState) (pid : Nat)
    (m : Message) (dest : String) :
    ((handleOneDest osState st pid m dest).1).pending =
      (trackPendingMessage st (workerNameOfDest dest) m).pending := by
  unfold handleOneDest
  dsimp only
  split
  · split
    · exact restartWorker_pending _ _
    · rfl
  · split
    · exact createWorker_pending _ _ _
    · split
      · split
        · rfl
        · split
          · rfl
          · rfl
      · split
        · rfl
        · rfl

theorem handleOneDest_events_head (osState : Nat → String) (st : SupState) (pid : Nat)
    (m : Message) (dest : String) :
    ∃ tl, (handleOneDest osState st pid m dest).2 =
      Event.track (workerNameOfDest dest) m.messageId :: tl := by
  unfold handleOneDest
  dsimp only
  split
  · split
    · exact ⟨_, rfl⟩
    · exact ⟨[], rfl⟩
  · split
    · exact ⟨_, rfl⟩
    · split
      · split
        · exact ⟨_, rfl⟩
        · split
          · exact ⟨_, rfl⟩
          · exact ⟨_, rfl⟩
      · split
        · exact ⟨_, rfl⟩
        · exact ⟨_, rfl⟩

theorem handleOneDest_shapes (osState : Nat → String) (st : SupState) (pid : Nat)
    (m : Message) (dest : String) (e : Event)
    (h : e ∈ (handleOneDest osState st pid m dest).2) :
    (∃ a b, e = Event.track a b) ∨ (∃ p msg, e = Event.send p msg) ∨
      (∃ a p, e = Event.spawn a p) ∨ (∃ p, e = Event.kill p) ∨
      (∃ d msg p, e = Event.retry d msg p) ∨ e = Event.deadSend ∨
      e = Event.throwCountErr := by
  unfold handleOneDest at h
  dsimp only at h
  split at h
  · split at h
    · rcases List.mem_cons.mp h with hm | hm
      · exact Or.inl ⟨_, _, hm⟩
      · rcases restartWorker_events _ _ _ hm with h1 | h1 | ⟨p, h1⟩ | ⟨p, msg, h1, _⟩
        · exact Or.inr (Or.inr (Or.inr (Or.inl ⟨_, h1⟩)))
        · exact Or.inr (Or.inr (Or.inr (Or.inr (Or.inr (Or.inr h1)))))
        · exact Or.inr (Or.inr (Or.inl ⟨_, _, h1⟩))
        · exact Or.inr (Or.inl ⟨_, _, h1⟩)
    · rcases List.mem_singleton.mp h with rfl
      exact Or.inl ⟨_, _, rfl⟩
  · split at h
    · rcases List.mem_cons.mp h with hm | hm
      · exact Or.inl ⟨_, _, hm⟩
      · rcases createWorker_events _ _ _ _ hm with h1 | ⟨p, h1⟩ | ⟨p, msg, h1, _⟩
        · exact Or.inr (Or.inr (Or.inr (Or.inr (Or.inr (Or.inr h1)))))
        · exact Or.inr (Or.inr (Or.inl ⟨_, _, h1⟩))
        · exact Or.inr (Or.inl ⟨_, _, h1⟩)
    · split at h
      · split at h
        · rcases List.mem_cons.mp h with hm | hm
          · exact Or.inl ⟨_, _, hm⟩
          · rcases List.mem_singleton.mp hm with rfl
            exact Or.inr (Or.inr (Or.inr (Or.inr (Or.inl ⟨_, _, _, rfl⟩))))
        · split at h
          · rcases List.mem_cons.mp h with hm | hm
            · exact Or.inl ⟨_, _, hm⟩
            · rcases List.mem_singleton.mp hm with rfl
              exact Or.inr (Or.inl ⟨_, _, rfl⟩)
          · rcases List.mem_cons.mp h with hm | hm
            · exact Or.inl ⟨_, _, hm⟩
            · rcases List.mem_singleton.mp hm with rfl
              exact Or.inr (Or.inr (Or.inr (Or.inr (Or.inr (Or.inl rfl)))))
      · split at h
        · rcases List.mem_cons.mp h with hm | hm
          · exact Or.inl ⟨_, _, hm⟩
          · rcases List.mem_singleton.mp hm with rfl
            exact Or.inr (Or.inl ⟨_, _, rfl⟩)
        · rcases List.mem_cons.mp h with hm | hm
          · exact Or.inl ⟨_, _, hm⟩
          · rcases List.mem_singleton.mp hm with rfl
            exact Or.inr (Or.inr (Or.inr (Or.inr (Or.inr (Or.inl rfl)))))

theorem headD_pid_not_dead (osState : Nat → String) (st : SupState) (n : String)
    (q : Nat) (h : DeadPid st q) (l : List WorkerProc)
    (hsub : ∀ w ∈ l, w ∈ availableWorkersFor osState st n) (hne : l ≠ []) :
    (l.headD dummyWorker).pid ≠ q := by
  have hmem := headD_mem dummyWorker hne
  rcases availableWorkersFor_mem osState st n _ (hsub _ hmem) with ⟨hmemW, _, halive⟩
  intro hq
  rw [h.1 _ hmemW hq] at halive
  exact absurd halive (by decide)

theorem handleOneDest_deadsafe (osState : Nat → String) (st : SupState) (pid : Nat)
    (m : Message) (dest : String) (q : Nat) (h : DeadPid st q) :
    DeadPid ((handleOneDest osState st pid m dest).1) q ∧
      ∀ msg, Event.send q msg ∉ (handleOneDest osState st pid m dest).2 := by
  have hst1 := trackPendingMessage_deadsafe st (workerNameOfDest dest) m q h
  unfold handleOneDest
  dsimp only
  split
  · split
    · rename_i w hw
      have hr := restartWorker_deadsafe _ w q hst1
      refine ⟨hr.1, ?_⟩
      intro msg hm
      rcases List.mem_cons.mp hm with hm | hm
      · exact Event.noConfusion hm
      · exact hr.2 msg hm
    · refine ⟨hst1, ?_⟩
      intro msg hm
      rcases List.mem_singleton.mp hm with hm
      exact Event.noConfusion hm
  · split
    · have hc := createWorker_deadsafe _ (workerNameOfDest dest)
        (workerConfigCount (workerNameOfDest dest)) q hst1
      refine ⟨hc.1, ?_⟩
      intro msg hm
      rcases List.mem_cons.mp hm with hm | hm
      · exact Event.noConfusion hm
      · exact hc.2 msg hm
    · rename_i hAvailNE
      split
      · -- SERVER_BUSY: candidates filtered by sender pid
        split
        · refine ⟨hst1, ?_⟩
          intro msg hm
          rcases List.mem_cons.mp hm with hm | hm
          · exact Event.noConfusion hm
          · rcases List.mem_singleton.mp hm with hm
            exact Event.noConfusion hm
        · rename_i hA2
          have hne : (availableWorkersFor osState st (workerNameOfDest dest)).filter
              (fun w => !(w.pid == pid)) ≠ [] := by
            intro hnil
            rw [hnil] at hA2
            exact hA2 rfl
          have hpid := headD_pid_not_dead osState st (workerNameOfDest dest) q h _
            (fun w hw => List.mem_of_mem_filter hw) hne
          split
          · refine ⟨hst1, ?_⟩
            intro msg hm
            rcases List.mem_cons.mp hm with hm | hm
            · exact Event.noConfusion hm
            · rcases List.mem_singleton.mp hm with hm
              rcases hm with ⟨⟩
              exact hpid rfl
          · refine ⟨hst1, ?_⟩
            intro msg hm
            rcases List.mem_cons.mp hm with hm | hm
            · exact Event.noConfusion hm
            · rcases List.mem_singleton.mp hm with hm
              exact Event.noConfusion hm
      · -- plain candidate list
        have hne : availableWorkersFor osState st (workerNameOfDest dest) ≠ [] := by
          intro hnil
          rw [hnil] at hAvailNE
          exact hAvailNE rfl
        have hpid := headD_pid_not_dead osState st (workerNameOfDest dest) q h _
          (fun w hw => hw) hne
        split
        · refine ⟨hst1, ?_⟩
          intro msg hm
          rcases List.mem_cons.mp hm with hm | hm
          · exact Event.noConfusion hm
          · rcases List.mem_singleton.mp hm with hm
            rcases hm with ⟨⟩
            exact hpid rfl
        · refine ⟨hst1, ?_⟩
          intro msg hm
          rcases List.mem_cons.mp hm with hm | hm
          · exact Event.noConfusion hm
          · rcases List.mem_singleton.mp hm with hm
            exact Event.noConfusion hm

theorem handleOneDest_uniq (osState : Nat → String) (st : SupState) (pid : Nat)
    (m : Message) (dest : String) (h : uniqIds st) :
    uniqIds ((handleOneDest osState st pid m dest).1) := by
  intro t
  rw [handleOneDest_pending]
  exact trackPendingMessage_uniq st (workerNameOfDest dest) m h t

theorem handleOneDest_forwardProj (osState : Nat → String) (st : SupState) (pid : Nat)
    (m : Message) (dest : String) (e : Event)
    (h : e ∈ (handleOneDest osState st pid m dest).2) : forwardProj e = none := by
  rcases handleOneDest_shapes osState st pid m dest e h with
    ⟨a, b, rfl⟩ | ⟨p, msg, rfl⟩ | ⟨a, p, rfl⟩ | ⟨p, rfl⟩ | ⟨d, msg, p, rfl⟩ | rfl | rfl <;> rfl

/-! ### Fold-level lemmas for the routing entry points -/

theorem foldlPreserve {α β : Type} (P : β → Prop) (f : β → α → β)
    (h : ∀ b a, P b → P (f b a)) : ∀ (l : List α) (b : β), P b → P (l.foldl f b) := by
  intro l
  induction l with
  | nil => intro b hb; exact hb
  | cons a tl ih => intro b hb; exact ih _ (h b a hb)

theorem hsmwAux_events (osState : Nat → String) (pid : Nat) (m : Message) :
    ∀ (l : List String) (acc : SupState × List Event) (e : Event),
      e ∈ (l.foldl (fun acc dest =>
        let r := handleOneDest osState acc.1 pid m dest
        (r.1, acc.2 ++ r.2)) acc).2 →
      e ∈ acc.2 ∨ ∃ st' dest, dest ∈ l ∧ e ∈ (handleOneDest osState st' pid m dest).2 := by
  intro l
  induction l with
  | nil => intro acc e h; exact Or.inl h
  | cons d tl ih =>
    intro acc e h
    rw [List.foldl_cons] at h
    rcases ih _ e h with hm | ⟨st', dest, hd, hmem⟩
    · rcases List.mem_append.mp hm with hm | hm
      · exact Or.inl hm
      · exact Or.inr ⟨acc.1, d, List.mem_cons_self d tl, hm⟩
    · exact Or.inr ⟨st', dest, List.mem_cons_of_mem d hd, hmem⟩

theorem handleSendMessageWorker_events (osState : Nat → String) (st : SupState)
    (pid : Nat) (m : Message) (e : Event)
    (h : e ∈ (handleSendMessageWorker osState st pid m).2) :
    ∃ st' dest, dest ∈ m.destination ∧ e ∈ (handleOneDest osState st' pid m dest).2 := by
  unfold handleSendMessageWorker at h
  rcases hsmwAux_events osState pid m m.destination (st, []) e h with hm | hm
  · simp at hm
  · exact hm

theorem hsmwAux_deadsafe (osState : Nat → String) (pid : Nat) (m : Message) (q : Nat) :
    ∀ (l : List String) (acc : SupState × List Event),
      DeadPid acc.1 q → (∀ msg, Event.send q msg ∉ acc.2) →
      DeadPid (l.foldl (fun acc dest =>
        let r := handleOneDest osState acc.1 pid m dest
        (r.1, acc.2 ++ r.2)) acc).1 q ∧
      ∀ msg, Event.send q msg ∉ (l.foldl (fun acc dest =>
        let r := handleOneDest osState acc.1 pid m dest
        (r.1, acc.2 ++ r.2)) acc).2 := by
  intro l
  induction l with
  | nil => intro acc h1 h2; exact ⟨h1, h2⟩
  | cons d tl ih =>
    intro acc h1 h2
    rw [List.foldl_cons]
    have hd := handleOneDest_deadsafe osState acc.1 pid m d q h1
    refine ih _ hd.1 ?_
    intro msg hm
    rcases List.mem_append.mp hm with hm | hm
    · exact h2 msg hm
    · exact hd.2 msg hm

theorem handleSendMessageWorker_deadsafe (osState : Nat → String) (st : SupState)
    (pid : Nat) (m : Message) (q : Nat) (h : DeadPid st q) :
    DeadPid ((handleSendMessageWorker osState st pid m).1) q ∧
      ∀ msg, Event.send q msg ∉ (handleSendMessageWorker osState st pid m).2 := by
  unfold handleSendMessageWorker
  exact hsmwAux_deadsafe osState pid m q m.destination (st, []) h (by intro msg hm; simp at hm)

theorem handleSendMessageWorker_uniq (osState : Nat → String) (st : SupState)
    (pid : Nat) (m : Message) (h : uniqIds st) :
    uniqIds ((handleSendMessageWorker osState st pid m).1) := by
  unfold handleSendMessageWorker
  exact foldlPreserve (fun acc : SupState × List Event => uniqIds acc.1)
    (fun acc dest =>
      let r := handleOneDest osState acc.1 pid m dest
      (r.1, acc.2 ++ r.2))
    (fun acc dest hacc => handleOneDest_uniq osState acc.1 pid m dest hacc)
    m.destination (st, []) h

theorem handleSendMessageWorker_forwardProj (osState : Nat → String) (st : SupState)
    (pid : Nat) (m : Message) (e : Event)
    (h : e ∈ (handleSendMessageWorker osState st pid m).2) : forwardProj e = none := by
  rcases handleSendMessageWorker_events osState st pid m e h with ⟨st', dest, _, hmem⟩
  exact handleOneDest_forwardProj osState st' pid m dest e hmem

theorem handleWorkerMessage_uniq (osState : Nat → String) (st : SupState)
    (m : Message) (pid : Nat) (h : uniqIds st) :
    uniqIds (handleWorkerMessage osState st m pid).state := by
  unfold handleWorkerMessage
  refine foldlPreserve (fun acc : RouteResult => uniqIds acc.state) _ ?_ m.destination _ h
  intro acc dest hacc
  by_cases hd : dest ≠ "supervisor"
  · simpa [hd] using handleSendMessageWorker_uniq osState acc.state pid _ hacc
  · by_cases hc : m.status = "completed"
    · simpa [hd, hc] using removePendingMessage_uniq acc.state (workerNameOfDest dest)
        m.messageId hacc
    · simpa [hd, hc] using hacc

theorem isEmpty_false_of_ne_nil {α : Type} {l : List α} (h : l ≠ []) :
    l.isEmpty = false := by
  cases l with
  | nil => exact absurd rfl h
  | cons a tl => rfl

theorem filterMap_none {α β : Type} {f : α → Option β} :
    ∀ {l : List α}, (∀ e ∈ l, f e = none) → l.filterMap f = [] := by
  intro l
  induction l with
  | nil => intro _; rfl
  | cons a tl ih =>
    intro h
    rw [List.filterMap_cons, h a (List.mem_cons_self a tl)]
    exact ih (fun e he => h e (List.mem_cons_of_mem a he))

/-! ### Claim theorems -/

/-- C7: `resendPendingMessages` never removes or reorders pending entries (the
state is returned unchanged); when no alive matching worker exists nothing is
sent; otherwise every pending envelope of the type is sent, in insertion order,
to the first alive matching worker in the registry. -/
theorem claim7_drain_frame (st : SupState) (T : String) :
    (resendPendingMessages st T).1 = st ∧
    (st.workers.find? (fun w => workerNameMatches w T && isWorkerAlive w) = none →
      (resendPendingMessages st T).2 = []) ∧
    ∀ w, st.workers.find? (fun w' => workerNameMatches w' T && isWorkerAlive w') = some w →
      (resendPendingMessages st T).2 =
        (st.pending T).map (fun pm => Event.send w.pid pm.msg) := by
  refine ⟨resendPendingMessages_state st T, ?_, ?_⟩
  · intro hf
    cases hE : (st.pending T).isEmpty with
    | true => simp [resendPendingMessages, hE]
    | false => simp [resendPendingMessages, hE, hf]
  · intro w hf
    cases hE : (st.pending T).isEmpty with
    | true =>
      have hnil : st.pending T = [] := by
        cases hl : st.pending T with
        | nil => rfl
        | cons a tl => rw [hl] at hE; simp at hE
      simp [resendPendingMessages, hE, hnil]
    | false => simp [resendPendingMessages, hE, hf]

/-- C7 witness: in `stAck` the first alive database worker is pid 10 and the
single pending envelope is resent to it. -/
theorem claim7_witness :
    (resendPendingMessages stAck "DatabaseInteractionWorker").2 =
      [Event.send 10 msgDb1] := by
  have h := (claim7_drain_frame stAck "DatabaseInteractionWorker").2.2 dbWorker10 (by decide)
  rw [h]
  rfl

/-- C9 (amended): when the database worker is busy it performs no database
action and replies with the original `messageId`, status `failed`, reason
`SERVER_BUSY`, and destination equal to the inbound message's destination
(the `["supervisor"]` default applies only when that field is absent). -/
theorem claim9_busy_reply (exec : Option String → Option String → List String)
    (m : WMessage) :
    dbOnMessage exec true m =
      ([], [{ messageId := m.messageId, status := "failed",
              destination := m.destination.getD ["supervisor"],
              reason := some "SERVER_BUSY" }], true) := by
  rfl

/-- C9 counterexample: for an inbound message carrying an explicit destination,
the busy reply's destination is that original destination, not
`["supervisor"]` as the claim states. -/
theorem claim9_counterexample :
    (dbOnMessage dbExec0 true wBusyMsg).2.1 = [wBusyReplyActual] ∧
      wBusyReplyActual.destination ≠ ["supervisor"] := by
  constructor
  · rfl
  · decide

/-- C10: when no registered worker matches the destination's type and the type
has no `workerConfig` entry, the `createWorker` call with the spread of the
undefined entry (count undefined) neither throws the count guard nor spawns,
and the message stays tracked in the pending table. -/
theorem claim10_missing_config (osState : Nat → String) (st : SupState) (pid : Nat)
    (m : Message) (dest : String)
    (hT : workerNameOfDest dest ≠ "")
    (hcfg : workerConfigCount (workerNameOfDest dest) = none)
    (hs : m.status ≠ "error")
    (hav : availableWorkersFor osState st (workerNameOfDest dest) = []) :
    (handleOneDest osState st pid m dest).1 =
      trackPendingMessage st (workerNameOfDest dest) m ∧
    Event.throwCountErr ∉ (handleOneDest osState st pid m dest).2 ∧
    (∀ n p, Event.spawn n p ∉ (handleOneDest osState st pid m dest).2) ∧
    hasPendingId (((handleOneDest osState st pid m dest).1).pending
      (workerNameOfDest dest)) m.messageId = true := by
  have hr : handleOneDest osState st pid m dest =
      ((resendPendingMessages (trackPendingMessage st (workerNameOfDest dest) m)
          (workerNameOfDest dest)).1,
        Event.track (workerNameOfDest dest) m.messageId ::
          (resendPendingMessages (trackPendingMessage st (workerNameOfDest dest) m)
            (workerNameOfDest dest)).2) := by
    unfold handleOneDest
    dsimp only
    rw [if_neg hs, hav, hcfg]
    rfl
  rw [hr]
  refine ⟨resendPendingMessages_state _ _, ?_, ?_, ?_⟩
  · intro hm
    rcases List.mem_cons.mp hm with hm | hm
    · exact Event.noConfusion hm
    · rcases resendPendingMessages_send_mem _ _ _ hm with ⟨w, _, pm, _, heq⟩
      exact Event.noConfusion heq
  · intro n p hm
    rcases List.mem_cons.mp hm with hm | hm
    · exact Event.noConfusion hm
    · rcases resendPendingMessages_send_mem _ _ _ hm with ⟨w, _, pm, _, heq⟩
      exact Event.noConfusion heq
  · rw [resendPendingMessages_state]
    exact trackPendingMessage_has st (workerNameOfDest dest) m hT

/-- C10 witness: routing `unkMsg` to the unknown type `UnknownWorker` in an
empty registry throws nothing, spawns nothing, and leaves the envelope
tracked. -/
theorem claim10_witness :
    Event.throwCountErr ∉ (handleOneDest rhoS stEmpty 10 unkMsg "UnknownWorker/z").2 ∧
      hasPendingId (((handleOneDest rhoS stEmpty 10 unkMsg "UnknownWorker/z").1).pending
        "UnknownWorker") "u1" = true := by
  have h := claim10_missing_config rhoS stEmpty 10 unkMsg "UnknownWorker/z"
    (by decide) (by decide) (by decide) (by rfl)
  exact ⟨h.2.1, h.2.2.2⟩

/-- C2: `trackPendingMessage` appends iff no entry with the same id exists
(for a nonempty worker name, the only kind the guard lets through); tracking
twice with the same id leaves exactly one entry with that id; and the
at-most-one-entry-per-`(type, messageId)` invariant is preserved by every
supervisor operation. -/
theorem claim2_track_dedup :
    (∀ (st : SupState) (T : String) (m : Message), T ≠ "" →
      ((trackPendingMessage st T m).pending T =
          st.pending T ++ [{ msg := m, timestamp := st.now }] ↔
        hasPendingId (st.pending T) m.messageId = false)) ∧
    (∀ (st : SupState) (T : String) (m : Message), T ≠ "" →
      (st.pending T).countP (fun pm => pm.msg.messageId == m.messageId) ≤ 1 →
      ((trackPendingMessage (trackPendingMessage st T m) T m).pending T).countP
        (fun pm => pm.msg.messageId == m.messageId) = 1) ∧
    (∀ st T m, uniqIds st → uniqIds (trackPendingMessage st T m)) ∧
    (∀ st T i, uniqIds st → uniqIds (removePendingMessage st T i)) ∧
    (∀ st T, uniqIds st → uniqIds (resendPendingMessages st T).1) ∧
    (∀ st T c, uniqIds st → uniqIds (createWorker st T c).1) ∧
    (∀ st w, uniqIds st → uniqIds (restartWorker st w).1) ∧
    (∀ (osState : Nat → String) (st : SupState) (pid : Nat) (m : Message),
      uniqIds st → uniqIds (handleSendMessageWorker osState st pid m).1) ∧
    (∀ (osState : Nat → String) (st : SupState) (m : Message) (pid : Nat),
      uniqIds st → uniqIds (handleWorkerMessage osState st m pid).state) := by
  refine ⟨?_, ?_, trackPendingMessage_uniq, removePendingMessage_uniq, ?_, ?_, ?_,
    handleSendMessageWorker_uniq, handleWorkerMessage_uniq⟩
  · intro st T m hT
    constructor
    · intro heq
      by_contra hd
      have hd' : hasPendingId (st.pending T) m.messageId = true := by
        cases hb : hasPendingId (st.pending T) m.messageId
        · exact absurd hb hd
        · rfl
      rw [trackPendingMessage_pending_dup st T m hd'] at heq
      have := congrArg List.length heq
      simp at this
    · exact trackPendingMessage_pending_append st T m hT
  · intro st T m hT hle
    by_cases hd : hasPendingId (st.pending T) m.messageId
    · rw [trackPendingMessage_pending_dup st T m hd, trackPendingMessage_pending_dup st T m hd]
      have hpos : 0 < (st.pending T).countP (fun pm => pm.msg.messageId == m.messageId) := by
        rcases List.any_eq_true.mp hd with ⟨pm, hpm, hpred⟩
        exact List.countP_pos_iff.mpr ⟨pm, hpm, hpred⟩
      omega
    · have hd' : hasPendingId (st.pending T) m.messageId = false := by
        cases hb : hasPendingId (st.pending T) m.messageId
        · rfl
        · exact absurd hb hd
      have happ := trackPendingMessage_pending_append st T m hT hd'
      have hhas := trackPendingMessage_has st T m hT
      rw [trackPendingMessage_pending_dup (trackPendingMessage st T m) T m hhas, happ,
        List.countP_append]
      have h0 : (st.pending T).countP (fun pm => pm.msg.messageId == m.messageId) = 0 := by
        rw [List.countP_eq_zero]
        intro pm hpm hpred
        rcases List.any_eq_false.mp hd' pm hpm with h
        exact h hpred
      simp [h0, List.countP_cons]
  · intro st T h
    rw [resendPendingMessages_state]
    exact h
  · intro st T c h t
    rw [createWorker_pending]
    exact h t
  · intro st w h t
    rw [restartWorker_pending]
    exact h t

/-- C2 witness: tracking `msgDb1` once in the empty table appends it, and
tracking it twice leaves exactly one entry with its id. -/
theorem claim2_witness :
    ((trackPendingMessage stEmpty "TestWorker" msgDb1).pending "TestWorker" =
        stEmpty.pending "TestWorker" ++ [{ msg := msgDb1, timestamp := stEmpty.now }] ↔
      hasPendingId (stEmpty.pending "TestWorker") msgDb1.messageId = false) ∧
    ((trackPendingMessage (trackPendingMessage stEmpty "TestWorker" msgDb1) "TestWorker"
        msgDb1).pending "TestWorker").countP
      (fun pm => pm.msg.messageId == msgDb1.messageId) = 1 :=
  ⟨claim2_track_dedup.1 stEmpty "TestWorker" msgDb1 (by decide),
   claim2_track_dedup.2.1 stEmpty "TestWorker" msgDb1 (by decide) (by decide)⟩

/-- C5: for every peer destination with a nonempty routing key, the per
destination handler records the envelope via `track` as its first operation
(every send, spawn, kill, or retry comes later in the trace), after which an
entry with the envelope's id is in the pending table, and it is still there
in the final state. -/
theorem claim5_track_first (osState : Nat → String) (st : SupState) (pid : Nat)
    (m : Message) (dest : String) (hT : workerNameOfDest dest ≠ "") :
    (∃ tl, (handleOneDest osState st pid m dest).2 =
      Event.track (workerNameOfDest dest) m.messageId :: tl) ∧
    hasPendingId ((trackPendingMessage st (workerNameOfDest dest) m).pending
      (workerNameOfDest dest)) m.messageId = true ∧
    hasPendingId (((handleOneDest osState st pid m dest).1).pending
      (workerNameOfDest dest)) m.messageId = true := by
  refine ⟨handleOneDest_events_head osState st pid m dest,
    trackPendingMessage_has st (workerNameOfDest dest) m hT, ?_⟩
  rw [handleOneDest_pending]
  exact trackPendingMessage_has st (workerNameOfDest dest) m hT

/-- C5 witness: routing `msgDb1` to the database worker type tracks it first
and it is pending afterwards. -/
theorem claim5_witness :
    (∃ tl, (handleOneDest rhoS stErr 10 msgDb1 "DatabaseInteractionWorker/createNewData").2 =
      Event.track "DatabaseInteractionWorker" "m1" :: tl) ∧
    hasPendingId (((handleOneDest rhoS stErr 10 msgDb1
      "DatabaseInteractionWorker/createNewData").1).pending
      "DatabaseInteractionWorker") "m1" = true := by
  have h := claim5_track_first rhoS stErr 10 msgDb1 "DatabaseInteractionWorker/createNewData"
    (by decide)
  exact ⟨h.1, h.2.2⟩

theorem hasPendingId_append_left (l l' : List PendingMessage) (i : String)
    (h : hasPendingId l i = true) : hasPendingId (l ++ l') i = true := by
  unfold hasPendingId at h ⊢
  rw [List.any_append, h]
  rfl

theorem trackPendingMessage_pending_extend (st : SupState) (n : String) (m : Message)
    (T : String) :
    ∃ tail, (trackPendingMessage st n m).pending T = st.pending T ++ tail := by
  by_cases hT : T = n
  · subst hT
    by_cases hn : T = ""
    · subst hn
      rw [trackPendingMessage_emptyName]
      exact ⟨[], (List.append_nil _).symm⟩
    by_cases hd : hasPendingId (st.pending T) m.messageId
    · rw [trackPendingMessage_pending_dup st T m hd]
      exact ⟨[], (List.append_nil _).symm⟩
    · have hd' : hasPendingId (st.pending T) m.messageId = false := by
        cases hb : hasPendingId (st.pending T) m.messageId
        · rfl
        · exact absurd hb hd
      exact ⟨[{ msg := m, timestamp := st.now }],
        trackPendingMessage_pending_append st T m hn hd'⟩
  · rw [trackPendingMessage_pending_ne st n T m hT]
    exact ⟨[], (List.append_nil _).symm⟩

theorem handleOneDest_pending_extend (osState : Nat → String) (st : SupState) (pid : Nat)
    (m : Message) (dest : String) (T : String) :
    ∃ tail, ((handleOneDest osState st pid m dest).1).pending T = st.pending T ++ tail := by
  rw [handleOneDest_pending]
  exact trackPendingMessage_pending_extend st (workerNameOfDest dest) m T

theorem hsmwAux_extends (osState : Nat → String) (pid : Nat) (m : Message) :
    ∀ (l : List String) (acc : SupState × List Event) (T : String),
      ∃ tail, (l.foldl (fun acc dest =>
        let r := handleOneDest osState acc.1 pid m dest
        (r.1, acc.2 ++ r.2)) acc).1.pending T = acc.1.pending T ++ tail := by
  intro l
  induction l with
  | nil => intro acc T; exact ⟨[], (List.append_nil _).symm⟩
  | cons d tl ih =>
    intro acc T
    rw [List.foldl_cons]
    obtain ⟨t2, ht2⟩ := ih _ T
    obtain ⟨t1, ht1⟩ := handleOneDest_pending_extend osState acc.1 pid m d T
    refine ⟨t1 ++ t2, ?_⟩
    rw [ht2]
    dsimp only
    rw [ht1, List.append_assoc]

theorem handleSendMessageWorker_extends (osState : Nat → String) (st : SupState)
    (pid : Nat) (m : Message) (T : String) :
    ∃ tail, ((handleSendMessageWorker osState st pid m).1).pending T =
      st.pending T ++ tail := by
  unfold handleSendMessageWorker
  exact hsmwAux_extends osState pid m m.destination (st, []) T

theorem handleOneDest_no_remove (osState : Nat → String) (st : SupState) (pid : Nat)
    (m : Message) (dest : String) (n i : String) :
    Event.remove n i ∉ (handleOneDest osState st pid m dest).2 := by
  intro h
  rcases handleOneDest_shapes osState st pid m dest _ h with
    ⟨a, b, h1⟩ | ⟨p, msg, h1⟩ | ⟨a, p, h1⟩ | ⟨p, h1⟩ | ⟨d', msg, p, h1⟩ | h1 | h1 <;>
    exact Event.noConfusion h1

theorem handleSendMessageWorker_no_remove (osState : Nat → String) (st : SupState)
    (pid : Nat) (m : Message) (n i : String) :
    Event.remove n i ∉ (handleSendMessageWorker osState st pid m).2 := by
  intro h
  rcases handleSendMessageWorker_events osState st pid m _ h with ⟨st', dest, _, hmem⟩
  exact handleOneDest_no_remove osState st' pid m dest n i hmem

theorem hwmAux_extends (osState : Nat → String) (pid : Nat) (m : Message) :
    ∀ (l : List String) (acc : RouteResult) (T : String), T ≠ "supervisor" →
      ∃ tail, (l.foldl (fun (acc : RouteResult) dest =>
          if dest ≠ "supervisor" then
            let newDest := m.destination.filter (fun d => d == dest)
            let fwd := { m with destination := newDest }
            let r := handleSendMessageWorker osState acc.state pid fwd
            { state := r.1, events := acc.events ++ (Event.forward fwd :: r.2),
              finalDestination := newDest }
          else if m.status = "completed" then
            { state := removePendingMessage acc.state (workerNameOfDest dest) m.messageId,
              events := acc.events ++ [Event.remove (workerNameOfDest dest) m.messageId],
              finalDestination := acc.finalDestination }
          else acc) acc).state.pending T = acc.state.pending T ++ tail := by
  intro l
  induction l with
  | nil => intro acc T hT; exact ⟨[], (List.append_nil _).symm⟩
  | cons d tl ih =>
    intro acc T hT
    rw [List.foldl_cons]
    by_cases hd : d ≠ "supervisor"
    · rw [if_pos hd]
      obtain ⟨t2, ht2⟩ := ih _ T hT
      obtain ⟨t1, ht1⟩ := handleSendMessageWorker_extends osState acc.state pid
        { m with destination := m.destination.filter (fun d' => d' == d) } T
      refine ⟨t1 ++ t2, ?_⟩
      rw [ht2]
      dsimp only
      rw [ht1, List.append_assoc]
    · have hd' : d = "supervisor" := not_not.mp hd
      subst hd'
      rw [if_neg hd]
      by_cases hc : m.status = "completed"
      · rw [if_pos hc]
        obtain ⟨t2, ht2⟩ := ih _ T hT
        refine ⟨t2, ?_⟩
        rw [ht2]
        dsimp only
        rw [removePendingMessage_pending_ne _ _ _ _
          (show T ≠ workerNameOfDest "supervisor" from hT)]
      · rw [if_neg hc]
        exact ih _ T hT

theorem foldl_events_mono {α : Type} (g : RouteResult → α → RouteResult)
    (hstep : ∀ acc a, ∃ e, (g acc a).events = acc.events ++ e) :
    ∀ (l : List α) (acc : RouteResult),
      ∃ suffix, (l.foldl g acc).events = acc.events ++ suffix := by
  intro l
  induction l with
  | nil => intro acc; exact ⟨[], (List.append_nil _).symm⟩
  | cons a tl ih =>
    intro acc
    rw [List.foldl_cons]
    obtain ⟨s2, hs2⟩ := ih (g acc a)
    obtain ⟨e1, he1⟩ := hstep acc a
    exact ⟨e1 ++ s2, by rw [hs2, he1, List.append_assoc]⟩

theorem hwmAux_events_mono (osState : Nat → String) (pid : Nat) (m : Message) :
    ∀ (l : List String) (acc : RouteResult),
      ∃ suffix, (l.foldl (fun (acc : RouteResult) dest =>
          if dest ≠ "supervisor" then
            let newDest := m.destination.filter (fun d => d == dest)
            let fwd := { m with destination := newDest }
            let r := handleSendMessageWorker osState acc.state pid fwd
            { state := r.1, events := acc.events ++ (Event.forward fwd :: r.2),
              finalDestination := newDest }
          else if m.status = "completed" then
            { state := removePendingMessage acc.state (workerNameOfDest dest) m.messageId,
              events := acc.events ++ [Event.remove (workerNameOfDest dest) m.messageId],
              finalDestination := acc.finalDestination }
          else acc) acc).events = acc.events ++ suffix := by
  refine foldl_events_mono _ ?_
  intro acc d
  by_cases hd : d ≠ "supervisor"
  · rw [if_pos hd]
    exact ⟨_, rfl⟩
  · rw [if_neg hd]
    by_cases hc : m.status = "completed"
    · rw [if_pos hc]
      exact ⟨_, rfl⟩
    · rw [if_neg hc]
      exact ⟨[], (List.append_nil _).symm⟩

theorem hwmAux_remove_events (osState : Nat → String) (pid : Nat) (m : Message) :
    ∀ (l : List String) (acc : RouteResult) (n i : String),
      Event.remove n i ∈ (l.foldl (fun (acc : RouteResult) dest =>
          if dest ≠ "supervisor" then
            let newDest := m.destination.filter (fun d => d == dest)
            let fwd := { m with destination := newDest }
            let r := handleSendMessageWorker osState acc.state pid fwd
            { state := r.1, events := acc.events ++ (Event.forward fwd :: r.2),
              finalDestination := newDest }
          else if m.status = "completed" then
            { state := removePendingMessage acc.state (workerNameOfDest dest) m.messageId,
              events := acc.events ++ [Event.remove (workerNameOfDest dest) m.messageId],
              finalDestination := acc.finalDestination }
          else acc) acc).events →
      Event.remove n i ∈ acc.events ∨
        (n = "supervisor" ∧ i = m.messageId ∧ m.status = "completed") := by
  intro l
  induction l with
  | nil => intro acc n i h; exact Or.inl h
  | cons d tl ih =>
    intro acc n i h
    rw [List.foldl_cons] at h
    by_cases hd : d ≠ "supervisor"
    · rw [if_pos hd] at h
      rcases ih _ n i h with hm | hm
      · dsimp only at hm
        rcases List.mem_append.mp hm with hm | hm
        · exact Or.inl hm
        · rcases List.mem_cons.mp hm with hm | hm
          · exact Event.noConfusion hm
          · exact absurd hm (handleSendMessageWorker_no_remove osState acc.state pid _ n i)
      · exact Or.inr hm
    · have hd' : d = "supervisor" := not_not.mp hd
      subst hd'
      rw [if_neg hd] at h
      by_cases hc : m.status = "completed"
      · rw [if_pos hc] at h
        rcases ih _ n i h with hm | hm
        · dsimp only at hm
          rcases List.mem_append.mp hm with hm | hm
          · exact Or.inl hm
          · rcases List.mem_singleton.mp hm with hm
            injection hm with h1 h2
            exact Or.inr ⟨h1, h2, hc⟩
        · exact Or.inr hm
      · rw [if_neg hc] at h
        exact ih _ n i h

theorem hwmAux_remove_mem (osState : Nat → String) (pid : Nat) (m : Message) :
    ∀ (l : List String) (acc : RouteResult), "supervisor" ∈ l → m.status = "completed" →
      Event.remove "supervisor" m.messageId ∈ (l.foldl (fun (acc : RouteResult) dest =>
          if dest ≠ "supervisor" then
            let newDest := m.destination.filter (fun d => d == dest)
            let fwd := { m with destination := newDest }
            let r := handleSendMessageWorker osState acc.state pid fwd
            { state := r.1, events := acc.events ++ (Event.forward fwd :: r.2),
              finalDestination := newDest }
          else if m.status = "completed" then
            { state := removePendingMessage acc.state (workerNameOfDest dest) m.messageId,
              events := acc.events ++ [Event.remove (workerNameOfDest dest) m.messageId],
              finalDestination := acc.finalDestination }
          else acc) acc).events := by
  intro l
  induction l with
  | nil => intro acc h _; exact absurd h (List.not_mem_nil _)
  | cons d tl ih =>
    intro acc hmem hc
    rw [List.foldl_cons]
    rcases List.mem_cons.mp hmem with hm | hm
    · subst hm
      rw [if_neg (by intro hne; exact hne rfl), if_pos hc]
      obtain ⟨suffix, hsfx⟩ := hwmAux_events_mono osState pid m tl
        { state := removePendingMessage acc.state (workerNameOfDest "supervisor") m.messageId,
          events := acc.events ++ [Event.remove (workerNameOfDest "supervisor") m.messageId],
          finalDestination := acc.finalDestination }
      rw [hsfx]
      dsimp only
      rw [List.append_assoc]
      refine List.mem_append.mpr (Or.inr ?_)
      exact List.mem_append.mpr (Or.inl (List.mem_singleton.mpr rfl))
    · by_cases hd : d ≠ "supervisor"
      · rw [if_pos hd]
        exact ih _ hm hc
      · have hd' : d = "supervisor" := not_not.mp hd
        subst hd'
        rw [if_neg hd]
        rw [if_pos hc]
        exact ih _ hm hc

/-- C1 counterexample: the pending table holds `(DatabaseInteractionWorker, m1)`
and the supervisor processes a completed reply for `m1` whose destination list
includes `supervisor` (and the database worker as the other destination); the
claim says the entry is then removed, but it is still present afterwards —
the removal only ever touches the key parsed from the `supervisor` entry
itself. -/
theorem claim1_counterexample :
    hasPendingId ((handleWorkerMessage rhoS stAck ackSup 10).state.pending
      "DatabaseInteractionWorker") "m1" = true := by
  decide

/-- C1 (amended): for every completed reply whose destination list includes
`supervisor` — pure acks and fan-out acks alike — every pending-table removal
the router performs is keyed by the worker name parsed from the supervisor
entry itself (the key `"supervisor"`) and cites the reply's `messageId`, and
that removal does occur; pending lists of every other worker type are only
ever extended, so every entry tracked under the worker types of the reply's
other destinations remains in the table. -/
theorem claim1_ack_removal (osState : Nat → String) (st : SupState) (m : Message)
    (pid : Nat) (hs : m.status = "completed") (hsup : "supervisor" ∈ m.destination) :
    (∀ T, T ≠ "supervisor" →
      ∃ tail, (handleWorkerMessage osState st m pid).state.pending T =
        st.pending T ++ tail) ∧
    (∀ T i, T ≠ "supervisor" → hasPendingId (st.pending T) i = true →
      hasPendingId ((handleWorkerMessage osState st m pid).state.pending T) i = true) ∧
    (∀ n i, Event.remove n i ∈ (handleWorkerMessage osState st m pid).events →
      n = "supervisor" ∧ i = m.messageId) ∧
    Event.remove "supervisor" m.messageId ∈ (handleWorkerMessage osState st m pid).events := by
  have h1 : ∀ T, T ≠ "supervisor" →
      ∃ tail, (handleWorkerMessage osState st m pid).state.pending T =
        st.pending T ++ tail := by
    intro T hT
    unfold handleWorkerMessage
    dsimp only
    exact hwmAux_extends osState pid m m.destination _ T hT
  refine ⟨h1, ?_, ?_, ?_⟩
  · intro T i hT hhas
    obtain ⟨tail, htail⟩ := h1 T hT
    rw [htail]
    exact hasPendingId_append_left _ tail i hhas
  · intro n i hmem
    unfold handleWorkerMessage at hmem
    dsimp only at hmem
    rcases hwmAux_remove_events osState pid m m.destination _ n i hmem with h | h
    · exact absurd h (List.not_mem_nil _)
    · exact ⟨h.1, h.2.1⟩
  · unfold handleWorkerMessage
    dsimp only
    exact hwmAux_remove_mem osState pid m m.destination _ hsup hs

/-- C1 witness: processing the fan-out ack `ackSup` (destinations
`supervisor` and the database worker) emits the removal keyed `"supervisor"`
and leaves the entry tracked under `DatabaseInteractionWorker` in place. -/
theorem claim1_witness :
    Event.remove "supervisor" "m1" ∈ (handleWorkerMessage rhoS stAck ackSup 10).events ∧
      hasPendingId ((handleWorkerMessage rhoS stAck ackSup 10).state.pending
        "DatabaseInteractionWorker") "m1" = true := by
  have h := claim1_ack_removal rhoS stAck ackSup 10 rfl (by decide)
  exact ⟨h.2.2.2, h.2.1 "DatabaseInteractionWorker" "m1" (by decide) (by decide)⟩

/-- C3: on a `failed` / `SERVER_BUSY` reply from pid `p`, with at least one
candidate of the destination's type, the router excludes `p` from the
candidates; if another candidate remains the envelope is sent to a candidate
whose pid differs from `p` (an alive, type-matching registry member); if none
remains, nothing is sent and a retry of the envelope with status `completed`
is scheduled after the fixed 5000 ms delay. -/
theorem claim3_server_busy (osState : Nat → String) (st : SupState) (pid : Nat)
    (m : Message) (dest : String)
    (hs : m.status = "failed") (hr : m.reason = some "SERVER_BUSY")
    (hav : availableWorkersFor osState st (workerNameOfDest dest) ≠ []) :
    ((availableWorkersFor osState st (workerNameOfDest dest)).filter
        (fun w => !(w.pid == pid)) ≠ [] →
      ∃ w, w ∈ st.workers ∧ w.pid ≠ pid ∧
        workerNameMatches w (workerNameOfDest dest) = true ∧ isWorkerAlive w = true ∧
        (handleOneDest osState st pid m dest).2 =
          [Event.track (workerNameOfDest dest) m.messageId, Event.send w.pid m]) ∧
    ((availableWorkersFor osState st (workerNameOfDest dest)).filter
        (fun w => !(w.pid == pid)) = [] →
      (handleOneDest osState st pid m dest).2 =
        [Event.track (workerNameOfDest dest) m.messageId,
         Event.retry 5000 { m with status := "completed" } pid] ∧
      ∀ p msg, Event.send p msg ∉ (handleOneDest osState st pid m dest).2) := by
  have hsne : ¬(m.status = "error") := by rw [hs]; decide
  have hbusy : (m.status == "failed" && m.reason == some "SERVER_BUSY") = true := by
    rw [hs, hr]; decide
  have hnotEmpty : ¬((availableWorkersFor osState st (workerNameOfDest dest)).isEmpty = true) := by
    rw [isEmpty_false_of_ne_nil hav]; decide
  constructor
  · intro hA2
    have hmemA2 := headD_mem dummyWorker hA2
    have hmemAvail := List.mem_of_mem_filter hmemA2
    rcases availableWorkersFor_mem osState st (workerNameOfDest dest) _ hmemAvail with
      ⟨hmemW, hmatch, halive⟩
    have hpidne : (((availableWorkersFor osState st (workerNameOfDest dest)).filter
        (fun w => !(w.pid == pid))).headD dummyWorker).pid ≠ pid := by
      have hkeep := List.of_mem_filter hmemA2
      simpa using hkeep
    refine ⟨_, hmemW, hpidne, hmatch, halive, ?_⟩
    unfold handleOneDest
    dsimp only
    rw [if_neg hsne, if_neg hnotEmpty, if_pos hbusy,
      if_neg (by rw [isEmpty_false_of_ne_nil hA2]; decide), if_pos halive]
    rfl
  · intro hA2
    have heq : (handleOneDest osState st pid m dest).2 =
        [Event.track (workerNameOfDest dest) m.messageId,
         Event.retry 5000 { m with status := "completed" } pid] := by
      unfold handleOneDest
      dsimp only
      rw [if_neg hsne, if_neg hnotEmpty, if_pos hbusy, if_pos (by rw [hA2]; rfl)]
      rfl
    refine ⟨heq, ?_⟩
    intro p msg hm
    rw [heq] at hm
    rcases List.mem_cons.mp hm with hm | hm
    · exact Event.noConfusion hm
    · rcases List.mem_singleton.mp hm with hm
      exact Event.noConfusion hm

/-- C3 witness: with two alive database workers, a `SERVER_BUSY` failure from
pid 10 re-homes the envelope to the other worker (pid 11). -/
theorem claim3_witness :
    ∃ w, w ∈ stTwoDb.workers ∧ w.pid ≠ 10 ∧
      workerNameMatches w "DatabaseInteractionWorker" = true ∧ isWorkerAlive w = true ∧
      (handleOneDest rhoS stTwoDb 10 busyMsg "DatabaseInteractionWorker/createNewData").2 =
        [Event.track "DatabaseInteractionWorker" "b1", Event.send w.pid busyMsg] :=
  (claim3_server_busy rhoS stTwoDb 10 busyMsg "DatabaseInteractionWorker/createNewData"
    rfl rfl (by decide)).1 (by decide)

theorem restartWorker_events_head (st : SupState) (w : WorkerProc) :
    ∃ tl, (restartWorker st w).2 = Event.kill w.pid :: tl := by
  unfold restartWorker
  dsimp only
  exact ⟨_, rfl⟩

theorem pid_unique (l : List WorkerProc) (h : (l.map (fun w => w.pid)).Nodup)
    (w w' : WorkerProc) (hw : w ∈ l) (hw' : w' ∈ l) (heq : w.pid = w'.pid) : w = w' :=
  List.inj_on_of_nodup_map h hw hw' heq

theorem deadPid_of_regInv (st : SupState) (w : WorkerProc) (hinv : RegInv st)
    (hw : w ∈ st.workers) (hdead : isWorkerAlive w = false) : DeadPid st w.pid := by
  refine ⟨?_, hinv.2 w hw⟩
  intro w' hw' hpid
  rw [pid_unique st.workers hinv.1 w' w hw' hw hpid]
  exact hdead

/-- C8 counterexample: routing the two-destination envelope `fanMsg` leaves
the envelope's `destination` field overwritten with the last filtered
single-destination list, not unchanged as the claim states. -/
theorem claim8_counterexample :
    (handleWorkerMessage rhoS stErr fanMsg 10).finalDestination ≠ fanMsg.destination := by
  decide

/-- C8 (amended): for a two-destination envelope with distinct non-supervisor
entries, the router dispatches each destination with the same envelope whose
`destination` field is overwritten with the original list filtered to that
entry (here `[d1]` then `[d2]`), and afterwards the envelope's `destination`
field equals the last filtered list `[d2]` rather than the original list. -/
theorem claim8_fanout (osState : Nat → String) (st : SupState) (pid : Nat)
    (m : Message) (d1 d2 : String) (hdest : m.destination = [d1, d2])
    (h12 : d1 ≠ d2) (h1 : d1 ≠ "supervisor") (h2 : d2 ≠ "supervisor") :
    (handleWorkerMessage osState st m pid).finalDestination = [d2] ∧
    (handleWorkerMessage osState st m pid).events.filterMap forwardProj =
      [{ m with destination := [d1] }, { m with destination := [d2] }] := by
  have hne21 : (d2 == d1) = false := by
    cases hb : d2 == d1
    · rfl
    · exact absurd (Eq.symm (beq_iff_eq.mp hb)) h12
  have hne12 : (d1 == d2) = false := by
    cases hb : d1 == d2
    · rfl
    · exact absurd (beq_iff_eq.mp hb) h12
  have hf1 : [d1, d2].filter (fun d => d == d1) = [d1] := by
    simp [List.filter_cons, List.filter_nil, hne21]
  have hf2 : [d1, d2].filter (fun d => d == d2) = [d2] := by
    simp [List.filter_cons, List.filter_nil, hne12]
  have hres : handleWorkerMessage osState st m pid =
      { state := (handleSendMessageWorker osState
          (handleSendMessageWorker osState st pid { m with destination := [d1] }).1 pid
          { m with destination := [d2] }).1,
        events := ([] ++ (Event.forward { m with destination := [d1] } ::
            (handleSendMessageWorker osState st pid { m with destination := [d1] }).2)) ++
          (Event.forward { m with destination := [d2] } ::
            (handleSendMessageWorker osState
              (handleSendMessageWorker osState st pid { m with destination := [d1] }).1 pid
              { m with destination := [d2] }).2),
        finalDestination := [d2] } := by
    unfold handleWorkerMessage
    dsimp only
    rw [hdest]
    simp only [List.foldl_cons, List.foldl_nil]
    rw [if_pos h1, if_pos h2, hf1, hf2]
  rw [hres]
  refine ⟨rfl, ?_⟩
  simp only [List.nil_append, List.filterMap_append, List.filterMap_cons]
  rw [filterMap_none (fun e he => handleSendMessageWorker_forwardProj _ _ _ _ e he),
    filterMap_none (fun e he => handleSendMessageWorker_forwardProj _ _ _ _ e he)]
  rfl

/-- C8 witness: the fan-out of `fanMsg` forwards the two filtered copies and
leaves the destination field equal to the second singleton. -/
theorem claim8_witness :
    (handleWorkerMessage rhoS stErr fanMsg 10).finalDestination =
      ["DatabaseInteractionWorker/b"] ∧
    (handleWorkerMessage rhoS stErr fanMsg 10).events.filterMap forwardProj =
      [{ fanMsg with destination := ["RestApiWorker/a"] },
       { fanMsg with destination := ["DatabaseInteractionWorker/b"] }] :=
  claim8_fanout rhoS stErr 10 fanMsg "RestApiWorker/a" "DatabaseInteractionWorker/b"
    rfl (by decide) (by decide) (by decide)

/-- C4 counterexample: an error envelope from pid 10 destined to the sender's
own worker type is tracked before the error check, so the restart's pending
replay sends the error envelope itself (to the freshly spawned pid 100),
contradicting the claim that it is never sent to any worker's channel. -/
theorem claim4_counterexample :
    Event.send 100 errMsg1 ∈ (handleSendMessageWorker rhoS stErr 10 errMsg1).2 ∧
      errMsg1.status = "error" := by
  constructor
  · decide
  · rfl

/-- C4 (amended): for an error envelope the router schedules no retry and
takes no direct-send decision (no dead-send log either); if no worker bears
the source pid the step ends after tracking, with no send at all; if a worker
`w` with the source pid exists it is killed (and its type respawned), and
every send the step emits is a replay of an entry already in the
post-tracking pending list of `w`'s type — which contains the error envelope
itself exactly when the destination type coincides. -/
theorem claim4_error_restart (osState : Nat → String) (st : SupState) (pid : Nat)
    (m : Message) (dest : String) (h : m.status = "error") :
    (∀ d msg p, Event.retry d msg p ∉ (handleOneDest osState st pid m dest).2) ∧
    Event.deadSend ∉ (handleOneDest osState st pid m dest).2 ∧
    (st.workers.find? (fun w => w.pid == pid) = none →
      (handleOneDest osState st pid m dest).1 =
        trackPendingMessage st (workerNameOfDest dest) m ∧
      (handleOneDest osState st pid m dest).2 =
        [Event.track (workerNameOfDest dest) m.messageId]) ∧
    (∀ w, st.workers.find? (fun w' => w'.pid == pid) = some w →
      Event.kill w.pid ∈ (handleOneDest osState st pid m dest).2 ∧
      ∀ p msg, Event.send p msg ∈ (handleOneDest osState st pid m dest).2 →
        ∃ pm ∈ (trackPendingMessage st (workerNameOfDest dest) m).pending
          (restartNameOf w), pm.msg = msg) := by
  have hred : handleOneDest osState st pid m dest =
      match (trackPendingMessage st (workerNameOfDest dest) m).workers.find?
          (fun w => w.pid == pid) with
      | some w =>
        ((restartWorker (trackPendingMessage st (workerNameOfDest dest) m) w).1,
         Event.track (workerNameOfDest dest) m.messageId ::
           (restartWorker (trackPendingMessage st (workerNameOfDest dest) m) w).2)
      | none => (trackPendingMessage st (workerNameOfDest dest) m,
          [Event.track (workerNameOfDest dest) m.messageId]) := by
    unfold handleOneDest
    dsimp only
    rw [if_pos h]
    rfl
  rw [trackPendingMessage_workers] at hred
  cases hf : st.workers.find? (fun w => w.pid == pid) with
  | none =>
    simp only [hf] at hred
    rw [hred]
    refine ⟨?_, ?_, fun _ => ⟨rfl, rfl⟩, ?_⟩
    · intro d msg p hm
      rcases List.mem_singleton.mp hm with hm
      exact Event.noConfusion hm
    · intro hm
      rcases List.mem_singleton.mp hm with hm
      exact Event.noConfusion hm
    · intro w hw
      exact Option.noConfusion hw
  | some w =>
    simp only [hf] at hred
    rw [hred]
    refine ⟨?_, ?_, ?_, ?_⟩
    · intro d msg p hm
      rcases List.mem_cons.mp hm with hm | hm
      · exact Event.noConfusion hm
      · rcases restartWorker_events _ _ _ hm with h1 | h1 | ⟨p', h1⟩ | ⟨p', msg', h1, _⟩ <;>
          exact Event.noConfusion h1
    · intro hm
      rcases List.mem_cons.mp hm with hm | hm
      · exact Event.noConfusion hm
      · rcases restartWorker_events _ _ _ hm with h1 | h1 | ⟨p', h1⟩ | ⟨p', msg', h1, _⟩ <;>
          exact Event.noConfusion h1
    · intro hnone
      exact Option.noConfusion hnone
    · intro w' hw'
      have hww : w = w' := by injection hw'
      subst hww
      constructor
      · rcases restartWorker_events_head
          (trackPendingMessage st (workerNameOfDest dest) m) w with ⟨tl, htl⟩
        rw [htl]
        exact List.mem_cons_of_mem _ (List.mem_cons_self _ _)
      · intro p msg hm
        rcases List.mem_cons.mp hm with hm | hm
        · exact Event.noConfusion hm
        · rcases restartWorker_events _ _ _ hm with h1 | h1 | ⟨p', h1⟩ |
            ⟨p', msg', h1, pm, hpm, hpmmsg⟩
          · exact Event.noConfusion h1
          · exact Event.noConfusion h1
          · exact Event.noConfusion h1
          · injection h1 with h1p h1m
            subst h1m
            exact ⟨pm, hpm, hpmmsg⟩

/-- C4 witness: the error scenario schedules no retry and kills the source
worker (pid 10). -/
theorem claim4_witness :
    (∀ d msg p, Event.retry d msg p ∉ (handleOneDest rhoS stErr 10 errMsg1
      "DatabaseInteractionWorker/x").2) ∧
    Event.kill 10 ∈ (handleOneDest rhoS stErr 10 errMsg1 "DatabaseInteractionWorker/x").2 := by
  have h := claim4_error_restart rhoS stErr 10 errMsg1 "DatabaseInteractionWorker/x" rfl
  exact ⟨h.1, (h.2.2.2 dbWorker10 (by decide)).1⟩

/-- C6: a worker with a non-null exit code or the killed flag set fails
`isWorkerAlive`; and under registry sanity (distinct pids below the fresh-pid
counter), neither `handleSendMessageWorker` nor `resendPendingMessages` ever
emits a send to a dead worker's pid. -/
theorem claim6_no_dead_send :
    (∀ w : WorkerProc, w.exitCode ≠ none ∨ w.killed = true → isWorkerAlive w = false) ∧
    (∀ (osState : Nat → String) (st : SupState) (pid : Nat) (m : Message) (w : WorkerProc),
      RegInv st → w ∈ st.workers → isWorkerAlive w = false →
      ∀ msg, Event.send w.pid msg ∉ (handleSendMessageWorker osState st pid m).2) ∧
    (∀ (st : SupState) (T : String) (w : WorkerProc),
      RegInv st → w ∈ st.workers → isWorkerAlive w = false →
      ∀ msg, Event.send w.pid msg ∉ (resendPendingMessages st T).2) := by
  refine ⟨?_, ?_, ?_⟩
  · intro w hw
    unfold isWorkerAlive
    rcases hw with hw | hw
    · rcases Option.ne_none_iff_exists'.mp hw with ⟨v, hv⟩
      rw [hv]
      rfl
    · rw [hw]
      simp
  · intro osState st pid m w hinv hw hdead msg
    exact (handleSendMessageWorker_deadsafe osState st pid m w.pid
      (deadPid_of_regInv st w hinv hw hdead)).2 msg
  · intro st T w hinv hw hdead msg
    exact resendPendingMessages_deadsafe st T w.pid
      (deadPid_of_regInv st w hinv hw hdead) msg

/-- C6 witness: the exited worker (pid 7) of `stDead` is not alive and is
never the target of a send while routing `msgDb1`. -/
theorem claim6_witness :
    isWorkerAlive deadWorker7 = false ∧
      Event.send 7 msgDb1 ∉ (handleSendMessageWorker rhoS stDead 10 msgDb1).2 :=
  ⟨claim6_no_dead_send.1 deadWorker7 (Or.inl (by decide)),
   claim6_no_dead_send.2.1 rhoS stDead 10 msgDb1 deadWorker7
     (show RegInv stDead from ⟨by decide, by decide⟩) (by decide) (by decide) msgDb1⟩

end SCProject
